import Mathlib

set_option maxRecDepth 8192

/-!
Verification development for the qr-encrypt repository (src/lib.rs,
src/worker.rs, src/rtc.rs, src/common.rs).

Rust strings are modelled as Lean `String` (both are sequences of Unicode
scalar values).  Byte-level operations (`str::len`, slicing, UTF-8
encoding) are modelled explicitly via the UTF-8 byte size of each
character.  Byte values are modelled as `Nat` with explicit `< 256`
bounds where they matter.  Fallible Rust code is modelled with
`Option`/`Except`.  A Rust panic is modelled as a distinguished outcome
constructor.
-/

namespace QrEncrypt

/-! ## UTF-8 model

Models Rust's UTF-8 string representation: `csize` is `char::len_utf8`,
`utf8Len` is `str::len` (byte length), `isCharBoundary` is
`str::is_char_boundary`, `utf8Encode` is `str::as_bytes`, and
`utf8Decode` is `String::from_utf8` (returning `none` on invalid UTF-8).
-/

/-- Number of bytes of the UTF-8 encoding of a character
(Rust `char::len_utf8`). -/
def csize (c : Char) : Nat :=
  if c.toNat < 0x80 then 1
  else if c.toNat < 0x800 then 2
  else if c.toNat < 0x10000 then 3
  else 4

/-- Byte length of a string's UTF-8 encoding (Rust `str::len`). -/
def utf8Len : List Char → Nat
  | [] => 0
  | c :: cs => csize c + utf8Len cs

/-- Rust `str::is_char_boundary k`: `k` is 0 or the cumulative byte
length of a prefix of characters. -/
def isCharBoundary : List Char → Nat → Bool
  | _, 0 => true
  | [], _ + 1 => false
  | c :: cs, k + 1 =>
    if csize c ≤ k + 1 then isCharBoundary cs (k + 1 - csize c) else false

/-- UTF-8 encoding of one character (Rust `char::encode_utf8`). -/
def utf8EncodeChar (c : Char) : List Nat :=
  let n := c.toNat
  if n < 0x80 then [n]
  else if n < 0x800 then [0xC0 + n / 64, 0x80 + n % 64]
  else if n < 0x10000 then
    [0xE0 + n / 4096, 0x80 + (n / 64) % 64, 0x80 + n % 64]
  else
    [0xF0 + n / 262144, 0x80 + (n / 4096) % 64, 0x80 + (n / 64) % 64,
      0x80 + n % 64]

/-- UTF-8 encoding of a string (Rust `str::as_bytes`). -/
def utf8Encode : List Char → List Nat
  | [] => []
  | c :: cs => utf8EncodeChar c ++ utf8Encode cs

/-- One step of UTF-8 decoding, continuation bytes of a 2-byte sequence
(second byte must be `0x80..0xBF`; overlong encodings below `0x80`
rejected). -/
def utf8DecodeStep2 (b : Nat) : List Nat → Option (Nat × List Nat)
  | b1 :: bs1 =>
    if 0x80 ≤ b1 ∧ b1 < 0xC0 then
      if (b - 0xC0) * 64 + (b1 - 0x80) < 0x80 then none
      else some ((b - 0xC0) * 64 + (b1 - 0x80), bs1)
    else none
  | [] => none

/-- One step of UTF-8 decoding, continuation bytes of a 3-byte sequence
(overlong encodings below `0x800` and surrogate code points rejected). -/
def utf8DecodeStep3 (b : Nat) : List Nat → Option (Nat × List Nat)
  | b1 :: b2 :: bs2 =>
    if (0x80 ≤ b1 ∧ b1 < 0xC0) ∧ (0x80 ≤ b2 ∧ b2 < 0xC0) then
      if (b - 0xE0) * 4096 + (b1 - 0x80) * 64 + (b2 - 0x80) < 0x800 then none
      else if 0xD800 ≤ (b - 0xE0) * 4096 + (b1 - 0x80) * 64 + (b2 - 0x80) ∧
          (b - 0xE0) * 4096 + (b1 - 0x80) * 64 + (b2 - 0x80) < 0xE000 then none
      else some ((b - 0xE0) * 4096 + (b1 - 0x80) * 64 + (b2 - 0x80), bs2)
    else none
  | _ => none

/-- One step of UTF-8 decoding, continuation bytes of a 4-byte sequence
(overlong encodings below `0x10000` and code points above `0x10FFFF`
rejected). -/
def utf8DecodeStep4 (b : Nat) : List Nat → Option (Nat × List Nat)
  | b1 :: b2 :: b3 :: bs3 =>
    if (0x80 ≤ b1 ∧ b1 < 0xC0) ∧ (0x80 ≤ b2 ∧ b2 < 0xC0) ∧
        (0x80 ≤ b3 ∧ b3 < 0xC0) then
      if (b - 0xF0) * 262144 + (b1 - 0x80) * 4096 + (b2 - 0x80) * 64 +
          (b3 - 0x80) < 0x10000 then none
      else if 0x110000 ≤ (b - 0xF0) * 262144 + (b1 - 0x80) * 4096 +
          (b2 - 0x80) * 64 + (b3 - 0x80) then none
      else some ((b - 0xF0) * 262144 + (b1 - 0x80) * 4096 +
        (b2 - 0x80) * 64 + (b3 - 0x80), bs3)
    else none
  | _ => none

/-- One step of UTF-8 decoding: reads one scalar value off the front of
a byte string, rejecting stray continuation bytes and invalid leads. -/
def utf8DecodeStep : List Nat → Option (Nat × List Nat)
  | [] => none
  | b :: bs =>
    if b < 0x80 then some (b, bs)
    else if b < 0xC0 then none
    else if b < 0xE0 then utf8DecodeStep2 b bs
    else if b < 0xF0 then utf8DecodeStep3 b bs
    else if b < 0xF8 then utf8DecodeStep4 b bs
    else none

/-- A successful decoding step consumes at least one byte. -/
theorem utf8DecodeStep_length : ∀ (l : List Nat) (n : Nat) (rest : List Nat),
    utf8DecodeStep l = some (n, rest) → rest.length < l.length := by
  intro l n rest h
  cases l with
  | nil => simp [utf8DecodeStep] at h
  | cons b bs =>
    simp only [utf8DecodeStep] at h
    split at h
    · cases h; simp
    · split at h
      · cases h
      · split at h
        · cases bs with
          | nil => simp [utf8DecodeStep2] at h
          | cons b1 bs1 =>
            simp only [utf8DecodeStep2] at h
            split at h
            · split at h
              · cases h
              · cases h; simp; omega
            · cases h
        · split at h
          · match bs, h with
            | [], h => cases h
            | [b1], h => cases h
            | b1 :: b2 :: bs2, h =>
              simp only [utf8DecodeStep3] at h
              split at h
              · split at h
                · cases h
                · split at h
                  · cases h
                  · cases h; simp; omega
              · cases h
          · split at h
            · match bs, h with
              | [], h => cases h
              | [b1], h => cases h
              | [b1, b2], h => cases h
              | b1 :: b2 :: b3 :: bs3, h =>
                simp only [utf8DecodeStep4] at h
                split at h
                · split at h
                  · cases h
                  · split at h
                    · cases h
                    · cases h; simp; omega
                · cases h
            · cases h

/-- UTF-8 decoding (Rust `String::from_utf8`): rejects stray or missing
continuation bytes, overlong encodings, surrogate code points and code
points above `0x10FFFF`. -/
def utf8Decode (l : List Nat) : Option (List Char) :=
  match l with
  | [] => some []
  | b :: bs =>
    match h : utf8DecodeStep (b :: bs) with
    | some (n, rest) => (Char.ofNat n :: ·) <$> utf8Decode rest
    | none => none
termination_by l.length
decreasing_by exact utf8DecodeStep_length _ _ _ h

/-- Unicode scalar value bounds carried by every `Char`. -/
theorem char_toNat_valid (c : Char) :
    c.toNat < 0xD800 ∨ (0xE000 ≤ c.toNat ∧ c.toNat < 0x110000) := by
  rcases c.valid with h | h
  · left; exact_mod_cast h
  · right; exact ⟨by exact_mod_cast h.1, by exact_mod_cast h.2⟩

/-- Unfolding `utf8Decode` when the first step succeeds. -/
theorem utf8Decode_some (b : Nat) (bs : List Nat) (n : Nat) (rest : List Nat)
    (h : utf8DecodeStep (b :: bs) = some (n, rest)) :
    utf8Decode (b :: bs) = (Char.ofNat n :: ·) <$> utf8Decode rest := by
  rw [utf8Decode]
  split
  · rename_i n1 rest1 h1
    rw [h] at h1
    cases h1
    rfl
  · rename_i h1
    rw [h] at h1
    cases h1

/-- Unfolding `utf8Decode` when the first step fails. -/
theorem utf8Decode_step_none (b : Nat) (bs : List Nat)
    (h : utf8DecodeStep (b :: bs) = none) :
    utf8Decode (b :: bs) = none := by
  rw [utf8Decode]
  split
  · rename_i n1 rest1 h1
    rw [h] at h1
    cases h1
  · rfl

/-- Decoding one step of the UTF-8 bytes of a character recovers its
scalar value and leaves the tail untouched. -/
theorem utf8DecodeStep_encodeChar (c : Char) (bs : List Nat) :
    utf8DecodeStep (utf8EncodeChar c ++ bs) = some (c.toNat, bs) := by
  have hv := char_toNat_valid c
  rw [utf8EncodeChar]
  by_cases h1 : c.toNat < 0x80
  · rw [if_pos h1, List.cons_append, List.nil_append]
    simp only [utf8DecodeStep]
    rw [if_pos h1]
  · by_cases h2 : c.toNat < 0x800
    · rw [if_neg h1, if_pos h2, List.cons_append, List.cons_append,
        List.nil_append]
      simp only [utf8DecodeStep]
      rw [if_neg (by omega), if_neg (by omega), if_pos (by omega)]
      simp only [utf8DecodeStep2]
      rw [if_pos (by exact ⟨by omega, by omega⟩), if_neg (by omega)]
      congr 2
      omega
    · by_cases h3 : c.toNat < 0x10000
      · rw [if_neg h1, if_neg h2, if_pos h3, List.cons_append,
          List.cons_append, List.cons_append, List.nil_append]
        simp only [utf8DecodeStep]
        rw [if_neg (by omega), if_neg (by omega), if_neg (by omega),
          if_pos (by omega)]
        simp only [utf8DecodeStep3]
        rw [if_pos (by exact ⟨⟨by omega, by omega⟩, by omega, by omega⟩),
          if_neg (by omega), if_neg (by omega)]
        congr 2
        omega
      · rw [if_neg h1, if_neg h2, if_neg h3, List.cons_append,
          List.cons_append, List.cons_append, List.cons_append,
          List.nil_append]
        simp only [utf8DecodeStep]
        rw [if_neg (by omega), if_neg (by omega), if_neg (by omega),
          if_neg (by omega), if_pos (by omega)]
        simp only [utf8DecodeStep4]
        rw [if_pos (by
            exact ⟨⟨by omega, by omega⟩, ⟨by omega, by omega⟩, by omega,
              by omega⟩),
          if_neg (by omega), if_neg (by omega)]
        congr 2
        omega

/-- The UTF-8 encoding of a character is never empty. -/
theorem utf8EncodeChar_ne_nil (c : Char) : utf8EncodeChar c ≠ [] := by
  rw [utf8EncodeChar]
  split
  · simp
  · split
    · simp
    · split <;> simp

/-- Decoding inverts encoding: the byte string produced by `utf8Encode`
decodes back to the original characters. -/
theorem utf8Decode_utf8Encode (cs : List Char) :
    utf8Decode (utf8Encode cs) = some cs := by
  induction cs with
  | nil => rw [utf8Encode, utf8Decode]
  | cons c cs ih =>
    rw [utf8Encode]
    obtain ⟨b, bs0, hb⟩ : ∃ b bs0, utf8EncodeChar c ++ utf8Encode cs = b :: bs0 := by
      cases hc : utf8EncodeChar c with
      | nil => exact absurd hc (utf8EncodeChar_ne_nil c)
      | cons x xs => exact ⟨x, xs ++ utf8Encode cs, by simp [hc]⟩
    rw [hb, utf8Decode_some b bs0 c.toNat (utf8Encode cs)
      (by rw [← hb, utf8DecodeStep_encodeChar]), ih]
    simp [Char.ofNat_toNat]

/-- ASCII strings have one byte per character. -/
theorem utf8Len_ascii (cs : List Char) (h : ∀ c ∈ cs, c.toNat < 128) :
    utf8Len cs = cs.length := by
  induction cs with
  | nil => rfl
  | cons c cs ih =>
    have hc : c.toNat < 128 := h c (List.mem_cons_self ..)
    have h1 : csize c = 1 := by simp [csize, hc]
    simp only [utf8Len, h1, List.length_cons,
      ih fun d hd => h d (List.mem_cons_of_mem _ hd)]
    omega

/-- Every character occupies at least one byte. -/
theorem one_le_csize (c : Char) : 1 ≤ csize c := by
  unfold csize
  split <;> try omega
  split <;> try omega
  split <;> omega

/-- Every position up to the length of an ASCII string is a character
boundary. -/
theorem isCharBoundary_ascii :
    ∀ (cs : List Char) (k : Nat), (∀ c ∈ cs, c.toNat < 128) →
      k ≤ cs.length → isCharBoundary cs k = true
  | [], 0, _, _ => rfl
  | [], k + 1, _, hk => by simp at hk
  | _ :: _, 0, _, _ => rfl
  | c :: cs, k + 1, h, hk => by
    have hc : c.toNat < 128 := h c (List.mem_cons_self ..)
    have hs : csize c = 1 := by simp [csize, hc]
    simp only [isCharBoundary, hs]
    rw [if_pos (by omega)]
    have hkk : k + 1 - 1 = k := by omega
    rw [hkk]
    exact isCharBoundary_ascii cs k
      (fun d hd => h d (List.mem_cons_of_mem _ hd)) (by simpa using hk)

/-- The full byte length of a string is always a character boundary. -/
theorem isCharBoundary_full : ∀ cs : List Char,
    isCharBoundary cs (utf8Len cs) = true
  | [] => rfl
  | c :: cs => by
    have h1 := one_le_csize c
    obtain ⟨k, hk⟩ : ∃ k, csize c + utf8Len cs = k + 1 :=
      ⟨csize c + utf8Len cs - 1, by omega⟩
    rw [utf8Len, hk]
    simp only [isCharBoundary]
    rw [if_pos (by omega)]
    have hkk : k + 1 - csize c = utf8Len cs := by omega
    rw [hkk]
    exact isCharBoundary_full cs

/-! ## base64 model

Models the `base64` crate's `general_purpose::STANDARD` engine used by
both `lib.rs` and `worker.rs` (`BASE64`): standard alphabet, padding
required on encode, canonical padding and no trailing bits allowed on
decode.  Decoding therefore succeeds only on strings whose length is a
multiple of 4, with `=` only in the last group, and with the unused low
bits of the final symbol zero. -/

/-- Index of a character in the standard base64 alphabet. -/
def b64Index (c : Char) : Option Nat :=
  if 'A' ≤ c ∧ c ≤ 'Z' then some (c.toNat - 65)
  else if 'a' ≤ c ∧ c ≤ 'z' then some (c.toNat - 97 + 26)
  else if '0' ≤ c ∧ c ≤ '9' then some (c.toNat - 48 + 52)
  else if c = '+' then some 62
  else if c = '/' then some 63
  else none

/-- Character of the standard base64 alphabet at index `v < 64`. -/
def b64Char (v : Nat) : Char :=
  if v < 26 then Char.ofNat (65 + v)
  else if v < 52 then Char.ofNat (97 + v - 26)
  else if v < 62 then Char.ofNat (48 + v - 52)
  else if v = 62 then '+'
  else '/'

/-- Decode base64 characters four at a time.  `=` is accepted only as
canonical padding of the final group, and the unused low bits of the last
data symbol must be zero (the `STANDARD` engine decodes with
`DecodePaddingMode::RequireCanonical` and `decode_allow_trailing_bits =
false`).  Any input whose length is not a multiple of 4 is rejected by
the group pattern. -/
def b64DecodeGroups : List Char → Option (List Nat)
  | [] => some []
  | a :: b :: c :: d :: rest =>
    match b64Index a, b64Index b with
    | some va, some vb =>
      if rest = [] ∧ c = '=' ∧ d = '=' then
        if vb % 16 = 0 then some [va * 4 + vb / 16] else none
      else if rest = [] ∧ c ≠ '=' ∧ d = '=' then
        match b64Index c with
        | some vc =>
          if vc % 4 = 0 then some [va * 4 + vb / 16, vb % 16 * 16 + vc / 4]
          else none
        | none => none
      else
        match b64Index c, b64Index d with
        | some vc, some vd =>
          (fun t => (va * 4 + vb / 16) :: (vb % 16 * 16 + vc / 4) ::
            (vc % 4 * 64 + vd) :: t) <$> b64DecodeGroups rest
        | _, _ => none
    | _, _ => none
  | _ => none

/-- Decoding with the `STANDARD` base64 engine
(`BASE64.decode` in `lib.rs` and `worker.rs`). -/
def base64Decode (s : String) : Option (List Nat) :=
  b64DecodeGroups s.data

/-- The repository's `is_base64` (identical in `lib.rs` and `worker.rs`):
true exactly when `BASE64.decode` succeeds. -/
def is_base64 (s : String) : Bool :=
  (base64Decode s).isSome

/-- Encode bytes three at a time with padding (the `STANDARD` engine's
`BASE64.encode`). -/
def b64EncodeGroups : List Nat → List Char
  | [] => []
  | [b1] => [b64Char (b1 / 4), b64Char (b1 % 4 * 16), '=', '=']
  | [b1, b2] =>
    [b64Char (b1 / 4), b64Char (b1 % 4 * 16 + b2 / 16),
      b64Char (b2 % 16 * 4), '=']
  | b1 :: b2 :: b3 :: rest =>
    b64Char (b1 / 4) :: b64Char (b1 % 4 * 16 + b2 / 16) ::
      b64Char (b2 % 16 * 4 + b3 / 64) :: b64Char (b3 % 64) ::
      b64EncodeGroups rest

/-- Encoding with the `STANDARD` base64 engine (`BASE64.encode`). -/
def base64Encode (bs : List Nat) : String :=
  String.mk (b64EncodeGroups bs)

/-- The alphabet index inverts the alphabet character map below 64. -/
theorem b64Index_b64Char : ∀ v < 64, b64Index (b64Char v) = some v := by
  decide

/-- The base64 alphabet contains no `=`. -/
theorem b64Char_ne_eq : ∀ v < 64, b64Char v ≠ '=' := by
  decide

/-- Encoding a nonempty byte string yields a nonempty character
string. -/
theorem b64EncodeGroups_cons_ne_nil (b : Nat) (bs : List Nat) :
    b64EncodeGroups (b :: bs) ≠ [] := by
  match bs with
  | [] => simp [b64EncodeGroups]
  | [x] => simp [b64EncodeGroups]
  | x :: y :: zs => simp [b64EncodeGroups]

theorem b64_roundtrip : ∀ bs : List Nat, (∀ b ∈ bs, b < 256) →
    b64DecodeGroups (b64EncodeGroups bs) = some bs
  | [], _ => rfl
  | [b1], h => by
    have h1 : b1 < 256 := h b1 (by simp)
    simp only [b64EncodeGroups, b64DecodeGroups]
    rw [b64Index_b64Char (b1 / 4) (by omega), b64Index_b64Char (b1 % 4 * 16) (by omega)]
    dsimp only
    split
    · split
      · congr 2; omega
      · rename_i hmod; exact absurd (by omega) hmod
    · rename_i hcond; exact absurd (by exact ⟨trivial, trivial, trivial⟩) hcond
  | [b1, b2], h => by
    have h1 : b1 < 256 := h b1 (by simp)
    have h2 : b2 < 256 := h b2 (by simp)
    simp only [b64EncodeGroups, b64DecodeGroups]
    rw [b64Index_b64Char (b1 / 4) (by omega),
      b64Index_b64Char (b1 % 4 * 16 + b2 / 16) (by omega)]
    dsimp only
    split
    · rename_i hcond
      exact absurd hcond.2.1 (b64Char_ne_eq (b2 % 16 * 4) (by omega))
    · split
      · rw [b64Index_b64Char (b2 % 16 * 4) (by omega)]
        dsimp only
        split
        · congr 3 <;> omega
        · rename_i hmod; exact absurd (by omega) hmod
      · rename_i hcond
        exact absurd ⟨trivial, b64Char_ne_eq (b2 % 16 * 4) (by omega), trivial⟩ hcond
  | b1 :: b2 :: b3 :: rest0, h => by
    have h1 : b1 < 256 := h b1 (by simp)
    have h2 : b2 < 256 := h b2 (by simp)
    have h3 : b3 < 256 := h b3 (by simp)
    have ih := b64_roundtrip rest0 (fun b hb => h b (by simp [hb]))
    match rest0, ih with
    | r1 :: rs, ih => ?_
    | [], ih => ?_
    · simp only [b64EncodeGroups, b64DecodeGroups]
      rw [b64Index_b64Char (b1 / 4) (by omega),
        b64Index_b64Char (b1 % 4 * 16 + b2 / 16) (by omega)]
      dsimp only
      rw [if_neg (fun hc => b64EncodeGroups_cons_ne_nil r1 rs hc.1),
        if_neg (fun hc => b64EncodeGroups_cons_ne_nil r1 rs hc.1)]
      rw [b64Index_b64Char (b2 % 16 * 4 + b3 / 64) (by omega),
        b64Index_b64Char (b3 % 64) (by omega)]
      dsimp only
      rw [ih]
      simp only [Option.map_some, List.cons.injEq]
      have e1 : b1 / 4 * 4 + (b1 % 4 * 16 + b2 / 16) / 16 = b1 := by omega
      have e2 : (b1 % 4 * 16 + b2 / 16) % 16 * 16 + (b2 % 16 * 4 + b3 / 64) / 4 = b2 := by omega
      have e3 : (b2 % 16 * 4 + b3 / 64) % 4 * 64 + b3 % 64 = b3 := by omega
      rw [e1, e2, e3]
    · simp only [b64EncodeGroups, b64DecodeGroups]
      rw [b64Index_b64Char (b1 / 4) (by omega),
        b64Index_b64Char (b1 % 4 * 16 + b2 / 16) (by omega)]
      dsimp only
      rw [if_neg (fun hc => b64Char_ne_eq (b2 % 16 * 4 + b3 / 64) (by omega) hc.2.1),
        if_neg (fun hc => b64Char_ne_eq (b3 % 64) (by omega) hc.2.2)]
      rw [b64Index_b64Char (b2 % 16 * 4 + b3 / 64) (by omega),
        b64Index_b64Char (b3 % 64) (by omega)]
      dsimp only
      simp only [Option.map_some, List.cons.injEq]
      have e1 : b1 / 4 * 4 + (b1 % 4 * 16 + b2 / 16) / 16 = b1 := by omega
      have e2 : (b1 % 4 * 16 + b2 / 16) % 16 * 16 + (b2 % 16 * 4 + b3 / 64) / 4 = b2 := by omega
      have e3 : (b2 % 16 * 4 + b3 / 64) % 4 * 64 + b3 % 64 = b3 := by omega
      rw [e1, e2, e3]

/-- Decoding inverts encoding for byte inputs: `BASE64.decode` of
`BASE64.encode bs` recovers `bs`. -/
theorem base64Decode_base64Encode (bs : List Nat) (h : ∀ b ∈ bs, b < 256) :
    base64Decode (base64Encode bs) = some bs :=
  b64_roundtrip bs h

/-! ## bech32 and age key parsing

Models the `bech32` crate's `decode` (as used by the `age` crate's
`parse_bech32`) and the `age::x25519::{Recipient, Identity}` `FromStr`
implementations behind `is_valid_age_public_key` (`lib.rs`, `worker.rs`)
and `is_private_key_data` (`lib.rs`).  The model is faithful at the
`Option` level: any input the crate rejects (mixed case, bad separator,
bad character, bad checksum, wrong variant, bad padding, wrong length,
wrong human-readable prefix) is rejected here.  Unicode-aware case
detection in the crate differs from the ASCII ranges used here only on
non-ASCII characters, which both reject. -/

/-- The bech32 data character set. -/
def bech32Charset : List Char := "qpzry9x8gf2tvdw0s3jn54khce6mua7l".data

/-- Index of a character in a character list, counting from `i`. -/
def charIdxFrom (i : Nat) (c : Char) : List Char → Option Nat
  | [] => none
  | x :: xs => if c = x then some i else charIdxFrom (i + 1) c xs

/-- Reverse lookup in the bech32 character set (`CHARSET_REV`). -/
def charsetRev (c : Char) : Option Nat :=
  charIdxFrom 0 c bech32Charset

/-- Lowercasing of ASCII uppercase letters. -/
def asciiLower (c : Char) : Char :=
  if 'A' ≤ c ∧ c ≤ 'Z' then Char.ofNat (c.toNat + 32) else c

/-- Split a character string at the last `'1'` (the bech32 separator,
Rust `rsplitn(2, '1')`): returns the part before and after it. -/
def splitLastOne : List Char → Option (List Char × List Char)
  | [] => none
  | c :: cs =>
    match splitLastOne cs with
    | some (h, d) => some (c :: h, d)
    | none => if c = '1' then some ([], cs) else none

/-- The bech32 checksum generator constants. -/
def bech32Gen : List Nat :=
  [0x3b6a57b2, 0x26508e6d, 0x1ea119fa, 0x3d4233dd, 0x2a1462b3]

/-- One step of the bech32 `polymod` accumulator. -/
def bech32PolymodStep (chk v : Nat) : Nat :=
  let b := chk >>> 25
  let c0 := ((chk &&& 0x1ffffff) <<< 5) ^^^ v
  let c1 := if (b >>> 0) &&& 1 = 1 then c0 ^^^ 0x3b6a57b2 else c0
  let c2 := if (b >>> 1) &&& 1 = 1 then c1 ^^^ 0x26508e6d else c1
  let c3 := if (b >>> 2) &&& 1 = 1 then c2 ^^^ 0x1ea119fa else c2
  let c4 := if (b >>> 3) &&& 1 = 1 then c3 ^^^ 0x3d4233dd else c3
  if (b >>> 4) &&& 1 = 1 then c4 ^^^ 0x2a1462b3 else c4

/-- The bech32 `polymod` checksum accumulator over a value string. -/
def bech32Polymod (values : List Nat) : Nat :=
  values.foldl bech32PolymodStep 1

/-- The bech32 `hrp_expand`: high bits of the human-readable part, a
zero, then its low bits. -/
def bech32HrpExpand (hrp : List Char) : List Nat :=
  hrp.map (fun c => c.toNat >>> 5) ++ [0] ++ hrp.map (fun c => c.toNat &&& 31)

/-- The two bech32 checksum variants. -/
inductive Bech32Variant
  | bech32
  | bech32m
deriving DecidableEq

/-- Map data characters through the bech32 character set. -/
def charsetMap : List Char → Option (List Nat)
  | [] => some []
  | c :: cs =>
    match charsetRev c, charsetMap cs with
    | some v, some vs => some (v :: vs)
    | _, _ => none

/-- The `bech32` crate's `decode`: reject mixed case, lowercase, split at
the last separator, validate the human-readable part and the data
characters, and verify the checksum, returning the lowercased
human-readable part, the data values without the 6 checksum characters,
and the detected variant. -/
def bech32Decode (s : String) : Option (List Char × List Nat × Bech32Variant) :=
  let cs := s.data
  if (cs.any fun c => 'a' ≤ c ∧ c ≤ 'z') ∧ (cs.any fun c => 'A' ≤ c ∧ c ≤ 'Z')
  then none
  else
    match splitLastOne (cs.map asciiLower) with
    | none => none
    | some (hrp, dat) =>
      if hrp = [] ∨ dat.length < 6 then none
      else if ¬ hrp.all (fun c => 33 ≤ c.toNat ∧ c.toNat ≤ 126) then none
      else
        match charsetMap dat with
        | none => none
        | some vals =>
          if bech32Polymod (bech32HrpExpand hrp ++ vals) = 1 then
            some (hrp, vals.take (vals.length - 6), .bech32)
          else if bech32Polymod (bech32HrpExpand hrp ++ vals) = 0x2bc830a3 then
            some (hrp, vals.take (vals.length - 6), .bech32m)
          else none

/-- The `bech32` crate's `convert_bits(data, 5, 8, false)` (age's
`Vec::from_base32`): regroup 5-bit values into bytes; without padding,
leftover bits must number fewer than 5 and be zero. -/
def conv5to8 (acc bits : Nat) : List Nat → Option (List Nat)
  | [] =>
    if 5 ≤ bits ∨ (acc <<< (8 - bits)) &&& 255 ≠ 0 then none else some []
  | v :: rest =>
    if v >>> 5 ≠ 0 then none
    else if 8 ≤ bits + 5 then
      (fun t => ((((acc <<< 5) ||| v) >>> (bits + 5 - 8)) &&& 255) :: t) <$>
        conv5to8 ((acc <<< 5) ||| v) (bits + 5 - 8) rest
    else conv5to8 ((acc <<< 5) ||| v) (bits + 5) rest

/-- The `age` crate's `parse_bech32` followed by the key `FromStr`
checks: Bech32 variant (not Bech32m), 5-to-8-bit regrouping, matching
human-readable prefix, and exactly 32 key bytes. -/
def ageParseKey (hrp : List Char) (s : String) : Option (List Nat) :=
  match bech32Decode s with
  | some (h, vals, .bech32) =>
    if h = hrp then
      match conv5to8 0 0 vals with
      | some bytes => if bytes.length = 32 then some bytes else none
      | none => none
    else none
  | _ => none

/-- Parsing of `age::x25519::Recipient` from a string
(`"age"` human-readable prefix). -/
def age_recipient_parse (s : String) : Option (List Nat) :=
  ageParseKey "age".data s

/-- Parsing of `age::x25519::Identity` from a string
(`"age-secret-key-"` human-readable prefix). -/
def age_identity_parse (s : String) : Option (List Nat) :=
  ageParseKey "age-secret-key-".data s

/-- The repository's `is_valid_age_public_key` (identical in `lib.rs`
and `worker.rs`): true exactly when the string parses as an
`age::x25519::Recipient`. -/
def is_valid_age_public_key (s : String) : Bool :=
  (age_recipient_parse s).isSome

/-- The repository's `is_private_key_data` (`lib.rs`): true exactly when
the string parses as an `age::x25519::Identity`. -/
def is_private_key_data (s : String) : Bool :=
  (age_identity_parse s).isSome

/-! ## JSON model

Models `serde_json::from_str` for the two tagged enums on the wire:
`RtcSignalData` (`#[serde(rename_all = "snake_case", tag =
"signal_type")]`, `lib.rs`) and `RtcMessage` (`#[serde(rename_all =
"camelCase", tag = "type")]`, `common.rs`).  The grammar below is the
JSON grammar serde_json accepts (strings with escapes and surrogate
pairs, numbers kept as lexemes, arrays, objects with duplicate keys
preserved); `from_str` requires the value to span the whole input up to
trailing whitespace.  Internally tagged deserialization requires the
object to carry the tag key exactly once with a known variant name, and
the variant's one string field exactly once; other keys are ignored
(serde's default). -/

/-- JSON values; numbers are kept as their source lexeme. -/
inductive Json
  | null
  | bool (b : Bool)
  | num (lexeme : String)
  | str (s : String)
  | arr (xs : List Json)
  | obj (kvs : List (String × Json))

/-- JSON whitespace. -/
def isJsonWs (c : Char) : Bool :=
  c = ' ' ∨ c = '\t' ∨ c = '\n' ∨ c = '\r'

/-- Drop leading JSON whitespace. -/
def skipWs : List Char → List Char
  | [] => []
  | c :: cs => if isJsonWs c then skipWs cs else c :: cs

/-- Value of a hexadecimal digit. -/
def hexVal (c : Char) : Option Nat :=
  if '0' ≤ c ∧ c ≤ '9' then some (c.toNat - 48)
  else if 'a' ≤ c ∧ c ≤ 'f' then some (c.toNat - 97 + 10)
  else if 'A' ≤ c ∧ c ≤ 'F' then some (c.toNat - 65 + 10)
  else none

/-- Read four hexadecimal digits. -/
def hex4 : List Char → Option (Nat × List Char)
  | c1 :: c2 :: c3 :: c4 :: rest =>
    match hexVal c1, hexVal c2, hexVal c3, hexVal c4 with
    | some v1, some v2, some v3, some v4 =>
      some (v1 * 4096 + v2 * 256 + v3 * 16 + v4, rest)
    | _, _, _, _ => none
  | _ => none

/-- Expect a fixed character prefix. -/
def dropPrefixChars : List Char → List Char → Option (List Char)
  | [], cs => some cs
  | p :: ps, c :: cs => if c = p then dropPrefixChars ps cs else none
  | _ :: _, [] => none

/-- Longest prefix of characters satisfying a predicate, with the rest. -/
def spanChars (p : Char → Bool) : List Char → List Char × List Char
  | [] => ([], [])
  | c :: cs =>
    if p c then
      match spanChars p cs with
      | (pre, rest) => (c :: pre, rest)
    else ([], c :: cs)

/-- Lexeme of a JSON number (`-?(0|[1-9][0-9]*)(\.[0-9]+)?([eE][+-]?[0-9]+)?`),
with the remaining input. -/
def numberLexeme (cs : List Char) : Option (List Char × List Char) :=
  let (negPart, cs1) :=
    match cs with
    | '-' :: r => (['-'], r)
    | _ => (([] : List Char), cs)
  match cs1 with
  | [] => none
  | d :: r =>
    if d = '0' ∨ ¬ d.isDigit then
      if d = '0' then some (negPart ++ ['0'], r) else none
    else
      match spanChars Char.isDigit (d :: r) with
      | (ds, rest) => some (negPart ++ ds, rest)

/-- Optional fraction part of a JSON number. -/
def fracLexeme (cs : List Char) : Option (List Char × List Char) :=
  match cs with
  | '.' :: r =>
    match spanChars Char.isDigit r with
    | ([], _) => none
    | (ds, rest) => some ('.' :: ds, rest)
  | _ => some ([], cs)

/-- Optional exponent part of a JSON number. -/
def expLexeme (cs : List Char) : Option (List Char × List Char) :=
  match cs with
  | e :: r =>
    if e = 'e' ∨ e = 'E' then
      let (sgn, r1) :=
        match r with
        | s :: r2 => if s = '+' ∨ s = '-' then ([s], r2) else (([] : List Char), r)
        | [] => (([] : List Char), r)
      match spanChars Char.isDigit r1 with
      | ([], _) => none
      | (ds, rest) => some (e :: sgn ++ ds, rest)
    else some ([], e :: r)
  | [] => some ([], [])

/-- Full JSON number lexeme. -/
def parseNumberFull (cs : List Char) : Option (List Char × List Char) :=
  match numberLexeme cs with
  | none => none
  | some (intPart, r1) =>
    match fracLexeme r1 with
    | none => none
    | some (fracPart, r2) =>
      match expLexeme r2 with
      | none => none
      | some (expPart, r3) => some (intPart ++ fracPart ++ expPart, r3)

mutual

/-- Parse one JSON value (after skipping whitespace), fuel-bounded. -/
def parseValue : Nat → List Char → Option (Json × List Char)
  | 0, _ => none
  | fuel + 1, cs =>
    match skipWs cs with
    | [] => none
    | c :: rest =>
      if c = 'n' then
        match dropPrefixChars "ull".data rest with
        | some r => some (.null, r)
        | none => none
      else if c = 't' then
        match dropPrefixChars "rue".data rest with
        | some r => some (.bool true, r)
        | none => none
      else if c = 'f' then
        match dropPrefixChars "alse".data rest with
        | some r => some (.bool false, r)
        | none => none
      else if c = '"' then
        match parseStringBody fuel rest with
        | some (body, r) => some (.str (String.mk body), r)
        | none => none
      else if c = '[' then
        match skipWs rest with
        | ']' :: r2 => some (.arr [], r2)
        | cs2 =>
          match parseElems fuel cs2 with
          | some (xs, r) => some (.arr xs, r)
          | none => none
      else if c = '{' then
        match skipWs rest with
        | '}' :: r2 => some (.obj [], r2)
        | cs2 =>
          match parseMembers fuel cs2 with
          | some (kvs, r) => some (.obj kvs, r)
          | none => none
      else if c = '-' ∨ c.isDigit then
        match parseNumberFull (c :: rest) with
        | some (lex, r) => some (.num (String.mk lex), r)
        | none => none
      else none

/-- Parse the elements of a nonempty JSON array, fuel-bounded. -/
def parseElems : Nat → List Char → Option (List Json × List Char)
  | 0, _ => none
  | fuel + 1, cs =>
    match parseValue fuel cs with
    | some (v, r) =>
      match skipWs r with
      | ',' :: r2 =>
        match parseElems fuel r2 with
        | some (xs, r3) => some (v :: xs, r3)
        | none => none
      | ']' :: r2 => some ([v], r2)
      | _ => none
    | none => none

/-- Parse the members of a nonempty JSON object, fuel-bounded.
Duplicate keys are kept in order (serde buffers them and the struct
visitors reject duplicates later). -/
def parseMembers : Nat → List Char → Option (List (String × Json) × List Char)
  | 0, _ => none
  | fuel + 1, cs =>
    match skipWs cs with
    | '"' :: r =>
      match parseStringBody fuel r with
      | some (key, r1) =>
        match skipWs r1 with
        | ':' :: r2 =>
          match parseValue fuel r2 with
          | some (v, r3) =>
            match skipWs r3 with
            | ',' :: r4 =>
              match parseMembers fuel r4 with
              | some (kvs, r5) => some ((String.mk key, v) :: kvs, r5)
              | none => none
            | '}' :: r4 => some ([(String.mk key, v)], r4)
            | _ => none
          | none => none
        | _ => none
      | none => none
    | _ => none

/-- Parse the body of a JSON string after the opening quote: plain
characters above `0x1F`, the short escapes, and `\uXXXX` escapes with
mandatory surrogate pairing. -/
def parseStringBody : Nat → List Char → Option (List Char × List Char)
  | 0, _ => none
  | fuel + 1, cs =>
    match cs with
    | [] => none
    | c :: rest =>
      if c = '"' then some ([], rest)
      else if c = '\\' then
        match rest with
        | e :: rest1 =>
          if e = '"' ∨ e = '\\' ∨ e = '/' then
            match parseStringBody fuel rest1 with
            | some (body, r) => some (e :: body, r)
            | none => none
          else if e = 'b' then
            match parseStringBody fuel rest1 with
            | some (body, r) => some ('\x08' :: body, r)
            | none => none
          else if e = 'f' then
            match parseStringBody fuel rest1 with
            | some (body, r) => some ('\x0C' :: body, r)
            | none => none
          else if e = 'n' then
            match parseStringBody fuel rest1 with
            | some (body, r) => some ('\n' :: body, r)
            | none => none
          else if e = 'r' then
            match parseStringBody fuel rest1 with
            | some (body, r) => some ('\r' :: body, r)
            | none => none
          else if e = 't' then
            match parseStringBody fuel rest1 with
            | some (body, r) => some ('\t' :: body, r)
            | none => none
          else if e = 'u' then
            match hex4 rest1 with
            | some (h, r2) =>
              if 0xD800 ≤ h ∧ h < 0xDC00 then
                match r2 with
                | '\\' :: 'u' :: r3 =>
                  match hex4 r3 with
                  | some (l, r4) =>
                    if 0xDC00 ≤ l ∧ l < 0xE000 then
                      match parseStringBody fuel r4 with
                      | some (body, r5) =>
                        some (Char.ofNat (0x10000 + (h - 0xD800) * 0x400 +
                          (l - 0xDC00)) :: body, r5)
                      | none => none
                    else none
                  | none => none
                | _ => none
              else if 0xDC00 ≤ h ∧ h < 0xE000 then none
              else
                match parseStringBody fuel r2 with
                | some (body, r) => some (Char.ofNat h :: body, r)
                | none => none
            | none => none
          else none
        | [] => none
      else if c.toNat < 0x20 then none
      else
        match parseStringBody fuel rest with
        | some (body, r) => some (c :: body, r)
        | none => none

end

/-- `serde_json::from_str` for a `Json` value: parse one value and
require only whitespace to follow. -/
def jsonFromStr (s : String) : Option Json :=
  match parseValue (s.data.length * 4 + 16) s.data with
  | some (v, rest) => if skipWs rest = [] then some v else none
  | none => none

/-! ## Wire enums -/

/-- `RtcSignalData` (`lib.rs`): the signal wire format, internally
tagged by `signal_type` with snake_case variant names. -/
inductive RtcSignalData
  | offer (sdp_data : String)
  | answer (sdp_data : String)
deriving DecidableEq

/-- `RtcMessage` (`common.rs`): the channel envelope, internally tagged
by `type` with camelCase variant names (field names stay snake_case;
serde's enum-level `rename_all` renames variants only). -/
inductive RtcMessage
  | publicKey (public_key : String)
  | encryptedData (encrypted_data : String)
deriving DecidableEq

/-- The value of a key that occurs exactly once in an object (serde's
tag extraction and struct visitors reject duplicate fields). -/
def getUnique (kvs : List (String × Json)) (k : String) : Option Json :=
  match kvs.filter (fun kv => kv.1 = k) with
  | [kv] => some kv.2
  | _ => none

/-- `serde_json::from_str::<RtcSignalData>`: an object whose
`signal_type` is `"offer"` or `"answer"` and whose `sdp_data` is a
string; other keys are ignored. -/
def rtcSignalDataFromStr (s : String) : Option RtcSignalData :=
  match jsonFromStr s with
  | some (.obj kvs) =>
    match getUnique kvs "signal_type" with
    | some (.str t) =>
      match getUnique kvs "sdp_data" with
      | some (.str v) =>
        if t = "offer" then some (.offer v)
        else if t = "answer" then some (.answer v)
        else none
      | _ => none
    | _ => none
  | _ => none

/-- `serde_json::from_str::<RtcMessage>`: an object whose `type` is
`"publicKey"` or `"encryptedData"` with the matching string field. -/
def rtcMessageFromStr (s : String) : Option RtcMessage :=
  match jsonFromStr s with
  | some (.obj kvs) =>
    match getUnique kvs "type" with
    | some (.str t) =>
      if t = "publicKey" then
        match getUnique kvs "public_key" with
        | some (.str v) => some (.publicKey v)
        | _ => none
      else if t = "encryptedData" then
        match getUnique kvs "encrypted_data" with
        | some (.str v) => some (.encryptedData v)
        | _ => none
      else none
    | _ => none
  | _ => none

/-! ## The two QR-data classifiers

`process_qr_data` in `lib.rs` (main thread) and in `worker.rs` both
begin with

  `console::log!(&format!("🔍 Data preview: {}...", &data[..data.len().min(50)]))`

before classifying.  The slice `&data[..k]` with `k = min(len, 50)`
panics when `k` is not a character boundary of the UTF-8 string, so the
function's outcome is either a dispatch or a panic. -/

/-- Outcome of a classifier run: a dispatched event (the
`dispatch_custom_event` type/data pair in `lib.rs`, the returned
`(event_type, event_data)` pair in `worker.rs`) or a Rust panic. -/
inductive QrOutcome
  | dispatched (eventType eventData : String)
  | panicked
deriving DecidableEq

/-- Whether the debug-preview slice `&data[..data.len().min(50)]` is
within bounds, i.e. `min(len, 50)` is a character boundary. -/
def previewOk (s : String) : Bool :=
  isCharBoundary s.data (min (utf8Len s.data) 50)

/-- `process_qr_data` in `lib.rs` (the main-thread Input Classifier):
after the preview slice, try the signal wire format, then public key,
then private key, then the base64 length heuristic, else show the raw
text. -/
def process_qr_data (data : String) : QrOutcome :=
  if previewOk data then
    if (rtcSignalDataFromStr data).isSome then
      .dispatched "process_rtc_signal" data
    else if is_valid_age_public_key data then
      .dispatched "add_contact" data
    else if is_private_key_data data then
      .dispatched "add_contact" data
    else if is_base64 data ∧ 50 < utf8Len data.data ∧ utf8Len data.data < 2000
    then
      .dispatched "decrypt_message" data
    else
      .dispatched "show_dialog" ("Read data: " ++ data)
  else .panicked

namespace Worker

/-- `process_qr_data` in `worker.rs`: after the same preview slice, only
public key, then the base64 length heuristic, else show the raw text.
The function itself always returns `Ok`, so the dispatch carries the
returned `(event_type, event_data)` pair. -/
def process_qr_data (data : String) : QrOutcome :=
  if previewOk data then
    if is_valid_age_public_key data then
      .dispatched "add_contact" data
    else if is_base64 data ∧ 50 < utf8Len data.data ∧ utf8Len data.data < 2000
    then
      .dispatched "decrypt_message" data
    else
      .dispatched "show_dialog" ("Read data: " ++ data)
  else .panicked

end Worker

/-! ## Crypto glue (`worker.rs`)

`encrypt_message` and `decrypt_message` in `worker.rs` parse the key
strings, move between base64 text and bytes, and call into the `age`
encryption core (`Encryptor::wrap_output`/`Decryptor::new`/`decrypt`).
The X25519/ChaCha20-Poly1305 core itself is an external crate treated as
a provider: it is a parameter (`AgeApi`) whose round-trip contract
appears as an explicit hypothesis where a claim needs it.  One `AgeApi`
value fixes one choice of the encryptor's randomness. -/

/-- The `age` encryption core as seen by the glue code: derive a
recipient from an identity (32 key bytes each), encrypt a byte string
for a recipient, and attempt decryption with an identity.
`decrypt = none` covers the three failure exits in `decrypt_message`
(`Decryptor::new`, `decrypt`, `read_to_end`), all of which return
`Ok(None)`. -/
structure AgeApi where
  toPublic : List Nat → List Nat
  encrypt : List Nat → List Nat → List Nat
  decrypt : List Nat → List Nat → Option (List Nat)

/-- The distinct error exits of `encrypt_message`/`decrypt_message`
(in the Rust they are distinct boxed error values: a key parse error, a
`base64::DecodeError`, a `FromUtf8Error`). -/
inductive CryptoErr
  | invalidKey
  | invalidBase64
  | invalidUtf8
deriving DecidableEq

/-- `encrypt_message` (`worker.rs`): parse the recipient (`?` on
failure), encrypt the message bytes, and base64-encode the result. -/
def encrypt_message (api : AgeApi) (public_key message : String) :
    Except CryptoErr String :=
  match age_recipient_parse public_key with
  | none => .error .invalidKey
  | some r => .ok (base64Encode (api.encrypt r (utf8Encode message.data)))

/-- `decrypt_message` (`worker.rs`): parse the identity (`?` on
failure), base64-decode the ciphertext (`?` on failure), attempt
decryption (`Ok(None)` on failure), and re-encode the plaintext as a
string (`?` on invalid UTF-8). -/
def decrypt_message (api : AgeApi) (private_key encrypted_message : String) :
    Except CryptoErr (Option String) :=
  match age_identity_parse private_key with
  | none => .error .invalidKey
  | some idKey =>
    match base64Decode encrypted_message with
    | none => .error .invalidBase64
    | some bytes =>
      match api.decrypt idKey bytes with
      | none => .ok none
      | some plain =>
        match utf8Decode plain with
        | none => .error .invalidUtf8
        | some cs => .ok (some (String.mk cs))

/-- The two response shapes the worker's `Decrypt` branch can post
(`WorkerMessage::Decrypted` and, via `error_report`,
`WorkerMessage::Error`). -/
inductive WorkerResponse
  | decrypted (decrypted_data : String)
  | errorReport (message : String)
deriving DecidableEq

/-- Representative display text of the three error exits (the exact
text comes from the crates' `Display` impls and is never relied upon;
only the constructor shape and the `Ok(None)` literal matter). -/
def cryptoErrText : CryptoErr → String
  | .invalidKey => "invalid Bech32 encoding"
  | .invalidBase64 => "invalid base64"
  | .invalidUtf8 => "invalid utf-8 sequence"

/-- The `MainMessage::Decrypt` branch of `worker_main` (`worker.rs`):
`Ok(Some(d))` posts `Decrypted{d}`, `Ok(None)` posts
`Error{"❌ Error decrypting message"}` via `error_report`, and `Err(e)`
posts `Error{...}` with the error's text. -/
def worker_decrypt_branch (api : AgeApi) (private_key data : String) :
    WorkerResponse :=
  match decrypt_message api private_key data with
  | .ok (some d) => .decrypted d
  | .ok none => .errorReport "❌ Error decrypting message"
  | .error e => .errorReport ("❌ Error decrypting message: " ++ cryptoErrText e)

/-! ## Connection send (`rtc.rs`)

`Connection::send_message` locks the channel slot, requires a channel to
be present and in the `Open` ready state, serializes the message and
sends it.  The model is single-threaded (the wasm runtime): the mutex
always locks and is never poisoned.  `serde_json::to_string` of an
`RtcMessage` cannot fail and `send_with_str` succeeds on an open
channel, so the open-channel path returns `Ok(())`. -/

/-- `web_sys::RtcDataChannelState` (the states a data channel handle may
report; `opened` models `Open`). -/
inductive RtcDataChannelState
  | connecting
  | opened
  | closing
  | closed
deriving DecidableEq

/-- The error exits of `Connection::send_message`: the channel exists
but its ready state is not `Open` (the `"Data channel is not ready
(state: ...). Cannot send message."` `JsValue`), or no data channel has
been created/accepted yet (`"No data channel available"`). -/
inductive SendErr
  | channelNotReady (state : RtcDataChannelState)
  | noDataChannel
deriving DecidableEq

/-- A `Connection`'s observable state for sending: the channel slot
holds the data channel's ready state once a channel exists. -/
structure Connection where
  channel : Option RtcDataChannelState

/-- `Connection::send_message` (`rtc.rs`). -/
def Connection.send_message (conn : Connection) (_message : RtcMessage) :
    Except SendErr Unit :=
  match conn.channel with
  | some st =>
    if st ≠ .opened then .error (.channelNotReady st)
    else .ok ()
  | none => .error .noDataChannel

/-! ## Channel data handler (`lib.rs`)

The closure installed by `conn.set_data_handler` in the
`Msg::SendPublicKeyViaRtc` arm parses each received string as an
`RtcMessage`; `PublicKey` sends `Msg::SetPeerPublicKey` (whose update
arm sets `state.rtc_peer_public_key = Some(k)` unconditionally),
`EncryptedData` sends `Msg::DecryptReceivedMessage` (which does not
touch the peer key), and unparseable data is ignored. -/

/-- The message the data handler sends for one received string. -/
inductive RtcAction
  | setPeerKey (k : String)
  | decryptReceived (blob : String)
  | ignore
deriving DecidableEq

/-- The data handler closure (`lib.rs`, `Msg::SendPublicKeyViaRtc`). -/
def handle_rtc_data (data : String) : RtcAction :=
  match rtcMessageFromStr data with
  | some (.publicKey k) => .setPeerKey k
  | some (.encryptedData b) => .decryptReceived b
  | none => .ignore

/-- Effect of the dispatched message on the session's
`rtc_peer_public_key` field (`Msg::SetPeerPublicKey` arm of `update`). -/
def applyRtcAction (peerKey : Option String) : RtcAction → Option String
  | .setPeerKey k => some k
  | _ => peerKey

/-! ## ASCII facts about the parsers

Strings accepted by the bech32 decoder or the base64 decoder are pure
ASCII, so their debug-preview slice at byte 50 is always on a character
boundary: the classifiers cannot panic on them. -/

/-- A found character index means membership. -/
theorem charIdxFrom_mem : ∀ (l : List Char) (i : Nat) (c : Char) (v : Nat),
    charIdxFrom i c l = some v → c ∈ l
  | [], _, _, _, h => by simp [charIdxFrom] at h
  | x :: xs, i, c, v, h => by
    rw [charIdxFrom] at h
    split at h
    · rename_i he
      exact he ▸ List.mem_cons_self ..
    · exact List.mem_cons_of_mem _ (charIdxFrom_mem xs (i + 1) c v h)

/-- Every bech32 data character is ASCII. -/
theorem charsetRev_ascii (c : Char) (v : Nat) (h : charsetRev c = some v) :
    c.toNat < 128 := by
  have hm : c ∈ bech32Charset := charIdxFrom_mem _ _ _ _ h
  have : ∀ c ∈ bech32Charset, c.toNat < 128 := by decide
  exact this c hm

/-- Characters mapped through the bech32 character set are ASCII. -/
theorem charsetMap_ascii : ∀ (l : List Char) (vs : List Nat),
    charsetMap l = some vs → ∀ c ∈ l, c.toNat < 128
  | [], _, _, c, hc => by simp at hc
  | x :: xs, vs, h, c, hc => by
    rw [charsetMap] at h
    match hx : charsetRev x, hxs : charsetMap xs with
    | some v, some vs1 =>
      rcases List.mem_cons.mp hc with rfl | hc1
      · exact charsetRev_ascii c v hx
      · exact charsetMap_ascii xs vs1 hxs c hc1
    | some v, none => rw [hx, hxs] at h; cases h
    | none, _ => rw [hx] at h; cases h

/-- A split at the last separator reassembles the input. -/
theorem splitLastOne_eq : ∀ (l h d : List Char),
    splitLastOne l = some (h, d) → l = h ++ '1' :: d
  | [], h, d, he => by simp [splitLastOne] at he
  | c :: cs, h, d, he => by
    rw [splitLastOne] at he
    match hs : splitLastOne cs with
    | some (h1, d1) =>
      rw [hs] at he
      simp only [Option.some.injEq, Prod.mk.injEq] at he
      obtain ⟨he1, he2⟩ := he
      rw [← he1, ← he2, splitLastOne_eq cs h1 d1 hs]
      rfl
    | none =>
      rw [hs] at he
      dsimp only at he
      split at he
      · rename_i hc
        simp only [Option.some.injEq, Prod.mk.injEq] at he
        obtain ⟨he1, he2⟩ := he
        rw [← he1, ← he2, hc]
        rfl
      · cases he

/-- ASCII-lowercasing preserves being ASCII, in both directions. -/
theorem asciiLower_ascii (c : Char) (h : (asciiLower c).toNat < 128) :
    c.toNat < 128 := by
  rw [asciiLower] at h
  split at h
  · rename_i hc
    have : c ≤ 'Z' := hc.2
    have : c.toNat ≤ 90 := by exact_mod_cast this
    omega
  · exact h

/-- Strings the bech32 decoder accepts are pure ASCII. -/
theorem bech32Decode_ascii (s : String) (x : List Char × List Nat × Bech32Variant)
    (h : bech32Decode s = some x) : ∀ c ∈ s.data, c.toNat < 128 := by
  intro c hc
  rw [bech32Decode] at h
  split at h
  · cases h
  · match hs : splitLastOne (s.data.map asciiLower) with
    | none => rw [hs] at h; cases h
    | some (hrp, dat) =>
      rw [hs] at h
      dsimp only at h
      split at h
      · cases h
      · split at h
        · cases h
        · rename_i hlen hall
          match hm : charsetMap dat with
          | none => rw [hm] at h; cases h
          | some vals =>
            have heq : s.data.map asciiLower = hrp ++ '1' :: dat :=
              splitLastOne_eq _ _ _ hs
            have hlow : asciiLower c ∈ hrp ++ '1' :: dat := by
              rw [← heq]
              exact List.mem_map_of_mem _ hc
            refine asciiLower_ascii c ?_
            rcases List.mem_append.mp hlow with hh | hd
            · have hallp : ∀ d ∈ hrp, 33 ≤ d.toNat ∧ d.toNat ≤ 126 := by
                intro d hdm
                have := List.all_eq_true.mp (by
                  rcases not_not.mp hall with hh1
                  exact hh1) d hdm
                simpa using this
              have := (hallp _ hh).2
              omega
            · rcases List.mem_cons.mp hd with he | hdm
              · rw [he]; decide
              · exact charsetMap_ascii dat vals hm _ hdm

/-- Characters the base64 alphabet index accepts are ASCII. -/
theorem b64Index_ascii (c : Char) (v : Nat) (h : b64Index c = some v) :
    c.toNat < 128 := by
  rw [b64Index] at h
  split at h
  · rename_i hc
    have : c.toNat ≤ 90 := by exact_mod_cast hc.2
    omega
  · split at h
    · rename_i hc
      have : c.toNat ≤ 122 := by exact_mod_cast hc.2
      omega
    · split at h
      · rename_i hc
        have : c.toNat ≤ 57 := by exact_mod_cast hc.2
        omega
      · split at h
        · rename_i hc
          rw [hc]; decide
        · split at h
          · rename_i hc
            rw [hc]; decide
          · cases h

/-- Strings the base64 decoder accepts are pure ASCII. -/
theorem b64DecodeGroups_ascii : ∀ (l : List Char) (bs : List Nat),
    b64DecodeGroups l = some bs → ∀ c ∈ l, c.toNat < 128
  | [], _, _, c, hc => by simp at hc
  | a :: b :: c0 :: d :: rest, bs, h, c, hc => by
    rw [b64DecodeGroups] at h
    match ha : b64Index a, hb : b64Index b with
    | some va, some vb =>
      rw [ha, hb] at h
      dsimp only at h
      have hEq : ('=' : Char).toNat < 128 := by decide
      have hcases : c = a ∨ c = b ∨ c = c0 ∨ c = d ∨ c ∈ rest := by
        simpa using hc
      split at h
      · rename_i hcond
        rcases hcases with rfl | rfl | rfl | rfl | hr
        · exact b64Index_ascii c va ha
        · exact b64Index_ascii c vb hb
        · rw [hcond.2.1]; exact hEq
        · rw [hcond.2.2]; exact hEq
        · rw [hcond.1] at hr; simp at hr
      · split at h
        · rename_i hcond
          match hcIdx : b64Index c0 with
          | some vc =>
            rcases hcases with rfl | rfl | rfl | rfl | hr
            · exact b64Index_ascii c va ha
            · exact b64Index_ascii c vb hb
            · exact b64Index_ascii c vc hcIdx
            · rw [hcond.2.2]; exact hEq
            · rw [hcond.1] at hr; simp at hr
          | none => rw [hcIdx] at h; cases h
        · match hcIdx : b64Index c0, hdIdx : b64Index d with
          | some vc, some vd =>
            rw [hcIdx, hdIdx] at h
            dsimp only at h
            match hrec : b64DecodeGroups rest with
            | some tl =>
              rcases hcases with rfl | rfl | rfl | rfl | hr
              · exact b64Index_ascii c va ha
              · exact b64Index_ascii c vb hb
              · exact b64Index_ascii c vc hcIdx
              · exact b64Index_ascii c vd hdIdx
              · exact b64DecodeGroups_ascii rest tl hrec c hr
            | none => rw [hrec] at h; cases h
          | some vc, none => rw [hcIdx, hdIdx] at h; cases h
          | none, _ => rw [hcIdx] at h; cases h
    | some va, none => rw [ha, hb] at h; cases h
    | none, _ => rw [ha] at h; cases h
  | [a], _, h, _, _ => by simp [b64DecodeGroups] at h
  | [a, b], _, h, _, _ => by simp [b64DecodeGroups] at h
  | [a, b, c0], _, h, _, _ => by simp [b64DecodeGroups] at h

/-- A pure-ASCII string never panics on the preview slice. -/
theorem previewOk_of_ascii (s : String) (h : ∀ c ∈ s.data, c.toNat < 128) :
    previewOk s = true := by
  rw [previewOk, utf8Len_ascii s.data h]
  exact isCharBoundary_ascii s.data _ h (Nat.min_le_left ..)

/-- Base64 strings never panic on the preview slice. -/
theorem previewOk_of_base64 (s : String) (h : is_base64 s = true) :
    previewOk s = true := by
  rw [is_base64, base64Decode] at h
  match hd : b64DecodeGroups s.data with
  | some bs => exact previewOk_of_ascii s (b64DecodeGroups_ascii s.data bs hd)
  | none => rw [hd] at h; cases h

/-- Valid age key strings (either prefix) never panic on the preview
slice. -/
theorem previewOk_of_ageKey (hrp : List Char) (s : String) (bytes : List Nat)
    (h : ageParseKey hrp s = some bytes) : previewOk s = true := by
  rw [ageParseKey] at h
  match hd : bech32Decode s with
  | some (h1, vals, .bech32) =>
    exact previewOk_of_ascii s (bech32Decode_ascii s _ hd)
  | some (h1, vals, .bech32m) => rw [hd] at h; cases h
  | none => rw [hd] at h; cases h

/-! ## Concrete inputs for witnesses and counterexamples -/

/-- A small signal-descriptor string (ASCII, 38 bytes). -/
def sigSmall : String := "\x7b\"signal_type\":\"offer\",\"sdp_data\":\"x\"\x7d"

/-- A signal-descriptor string of 54 bytes whose character `'あ'`
(3 UTF-8 bytes) straddles byte offset 50, so
`&data[..data.len().min(50)]` slices inside a character. -/
def sigPanic : String :=
  "\x7b\"signal_type\":\"offer\",\"sdp_data\":\"aaaaaaaaaaaaaaあ\"\x7d"

/-- 49 ASCII bytes followed by `'あ'` (bytes 49–51): byte offset 50 is
not a character boundary. -/
def panicInput : String := String.mk (List.replicate 49 'a' ++ ['あ'])

/-- A well-formed age recipient string (payload bytes 0..31, valid
bech32 checksum). -/
def agePub : String :=
  "age1qqqsyqcyq5rqwzqfpg9scrgwpugpzysnzs23v9ccrydpk8qarc0savhh7m"

/-- A well-formed age identity string with the same payload bytes. -/
def agePriv : String :=
  "AGE-SECRET-KEY-1QQQSYQCYQ5RQWZQFPG9SCRGWPUGPZYSNZS23V9CCRYDPK8QARC0SWRYDWG"

/-- The payload bytes of `agePub`/`agePriv`. -/
def keyBytes : List Nat := List.range 32

/-- A provider instance whose key derivation and cipher are the
identity: it satisfies the round-trip contract and is used to
instantiate witnesses. -/
def trivApi : AgeApi := ⟨fun b => b, fun _ pt => pt, fun _ ct => some ct⟩

/-- A provider instance that can never open any ciphertext. -/
def noneApi : AgeApi := ⟨fun b => b, fun _ pt => pt, fun _ _ => none⟩

/-- A 2000-character base64 string. -/
def b2000 : String := String.mk (List.replicate 2000 'A')

/-- Decoding a run of `'A'`s of length `4*k` yields `3*k` zero bytes. -/
theorem b64DecodeGroups_replicateA :
    ∀ k : Nat, b64DecodeGroups (List.replicate (4 * k) 'A') =
      some (List.replicate (3 * k) 0)
  | 0 => rfl
  | k + 1 => by
    have hshape : List.replicate (4 * (k + 1)) 'A' =
        'A' :: 'A' :: 'A' :: 'A' :: List.replicate (4 * k) 'A' := by
      have h4 : 4 * (k + 1) = 4 * k + 1 + 1 + 1 + 1 := by omega
      rw [h4]
      simp [List.replicate_succ]
    rw [hshape, b64DecodeGroups]
    have hA : b64Index 'A' = some 0 := by decide
    rw [hA]
    dsimp only
    rw [if_neg (fun hc => absurd hc.2.1 (by decide)),
      if_neg (fun hc => absurd hc.2.2 (by decide))]
    rw [b64DecodeGroups_replicateA k]
    have h3 : 3 * (k + 1) = 3 * k + 1 + 1 + 1 := by omega
    rw [h3]
    simp [List.replicate_succ]

/-- The 2000-character run of `'A'`s is accepted by `BASE64.decode`. -/
theorem is_base64_b2000 : is_base64 b2000 = true := by
  rw [is_base64, base64Decode,
    show b2000.data = List.replicate (4 * 500) 'A' from rfl,
    b64DecodeGroups_replicateA 500]
  rfl

/-- The 2000-character run of `'A'`s has byte length 2000. -/
theorem utf8Len_b2000 : utf8Len b2000.data = 2000 := by
  rw [show b2000.data = List.replicate 2000 'A' from rfl, utf8Len_ascii]
  · simp
  · intro c hc
    rw [List.eq_of_mem_replicate hc]
    decide

/-- Dispatches with different event types are different outcomes. -/
theorem dispatched_ne (et1 et2 : String) (h : et1 ≠ et2) (d1 d2 : String) :
    QrOutcome.dispatched et1 d1 ≠ .dispatched et2 d2 := by
  intro hc
  injection hc with h1 h2
  exact h h1

/-! ## Claims -/

/-- Claim C1, counterexample: `sigPanic` parses as a `SignalDescriptor`
(an `Offer`), yet the main-thread classifier panics on it instead of
routing it to the signal flow, because the 50-byte debug-preview slice
falls inside its multi-byte character. -/
theorem c1_counterexample :
    (rtcSignalDataFromStr sigPanic).isSome = true ∧
      process_qr_data sigPanic = .panicked := by
  constructor
  · decide
  · decide

/-- Claim C1 (amended): for every input whose debug-preview slice lies
on a character boundary (so the classifier does not panic), parsing as a
`SignalDescriptor` routes the input to the signal flow; the signal check
is the first classification rule, so this holds regardless of any other
property of the string (in particular regardless of the base64-length
heuristic). -/
theorem c1_signal_priority (s : String) (h1 : previewOk s = true)
    (h2 : (rtcSignalDataFromStr s).isSome = true) :
    process_qr_data s = .dispatched "process_rtc_signal" s := by
  rw [process_qr_data, if_pos h1, if_pos h2]

/-- Claim C1, witness: a concrete Offer string is routed to the signal
flow. -/
theorem c1_witness :
    previewOk sigSmall = true ∧ (rtcSignalDataFromStr sigSmall).isSome = true ∧
      process_qr_data sigSmall = .dispatched "process_rtc_signal" sigSmall :=
  ⟨by decide, by decide, c1_signal_priority sigSmall (by decide) (by decide)⟩

/-- Claim C9: the classifier is claimed never to panic, but
`process_qr_data` slices `&data[..data.len().min(50)]` for its debug
preview, and on `panicInput` (49 ASCII bytes then `'あ'`) byte offset 50
is inside a character: the slice panics before any classification. -/
theorem c9_panic_on_multibyte : process_qr_data panicInput = .panicked := by
  decide

/-- Claim C10, counterexample: the worker-side classifier does not
return any of the three dispatches on `panicInput`: its identical debug
preview slice panics. -/
theorem c10_counterexample : Worker.process_qr_data panicInput = .panicked := by
  decide

/-- Claim C10 (amended): the worker-side classifier never routes to the
signal or private-key flow (every dispatch is `add_contact`,
`decrypt_message` or `show_dialog`); for inputs whose preview slice is
on a character boundary the three outcomes are characterized by the
public-key check and the base64-length heuristic; and it disagrees with
the main-thread classifier on signal-descriptor and bare-private-key
inputs, which it routes to `show_dialog`. -/
theorem c10_worker_classifier (s : String) :
    (∀ et ed, Worker.process_qr_data s = .dispatched et ed →
      et = "add_contact" ∨ et = "decrypt_message" ∨ et = "show_dialog") ∧
    (previewOk s = true →
      (Worker.process_qr_data s = .dispatched "add_contact" s ↔
        is_valid_age_public_key s = true) ∧
      (Worker.process_qr_data s = .dispatched "decrypt_message" s ↔
        is_valid_age_public_key s = false ∧ is_base64 s = true ∧
          50 < utf8Len s.data ∧ utf8Len s.data < 2000)) ∧
    (Worker.process_qr_data sigSmall =
        .dispatched "show_dialog" ("Read data: " ++ sigSmall) ∧
      process_qr_data sigSmall = .dispatched "process_rtc_signal" sigSmall) ∧
    (Worker.process_qr_data agePriv =
        .dispatched "show_dialog" ("Read data: " ++ agePriv) ∧
      process_qr_data agePriv = .dispatched "add_contact" agePriv) := by
  refine ⟨?_, ?_, ⟨by decide, by decide⟩, ⟨by decide, by decide⟩⟩
  · intro et ed h
    rw [Worker.process_qr_data] at h
    split at h
    · split at h
      · cases h; exact Or.inl rfl
      · split at h
        · cases h; exact Or.inr (Or.inl rfl)
        · cases h; exact Or.inr (Or.inr rfl)
    · cases h
  · intro hpv
    constructor
    · constructor
      · intro h
        by_cases hp : is_valid_age_public_key s = true
        · exact hp
        · exfalso
          rw [Worker.process_qr_data, if_pos hpv,
            if_neg (by simpa using hp)] at h
          split at h
          · exact absurd h
              (dispatched_ne "decrypt_message" "add_contact" (by decide) _ _)
          · exact absurd h
              (dispatched_ne "show_dialog" "add_contact" (by decide) _ _)
      · intro hp
        rw [Worker.process_qr_data, if_pos hpv, if_pos hp]
    · constructor
      · intro h
        by_cases hp : is_valid_age_public_key s = true
        · exfalso
          rw [Worker.process_qr_data, if_pos hpv, if_pos hp] at h
          exact absurd h
            (dispatched_ne "add_contact" "decrypt_message" (by decide) _ _)
        · rw [Worker.process_qr_data, if_pos hpv,
            if_neg (by simpa using hp)] at h
          split at h
          · rename_i hc
            exact ⟨by simpa using hp, hc.1, hc.2.1, hc.2.2⟩
          · exact absurd h
              (dispatched_ne "show_dialog" "decrypt_message" (by decide) _ _)
      · rintro ⟨hp, hb, hlo, hhi⟩
        rw [Worker.process_qr_data, if_pos hpv, if_neg (by simp [hp]),
          if_pos ⟨hb, hlo, hhi⟩]

/-- Claim C10, witness: the never-signal disjunction applied to the
empty string, which the worker routes to `show_dialog`. -/
theorem c10_witness :
    "show_dialog" = "add_contact" ∨ "show_dialog" = "decrypt_message" ∨
      "show_dialog" = "show_dialog" :=
  (c10_worker_classifier "").1 "show_dialog" "Read data: " (by decide)

/-- Claim C8: an input that does not parse as a signal descriptor and is
not a valid public key but is a valid private key is routed to the same
`add_contact` flow as public keys (same event type, same payload); such
inputs are pure ASCII, so the preview slice cannot panic on them. -/
theorem c8_private_key_add_contact (s : String)
    (hsig : rtcSignalDataFromStr s = none)
    (hpub : is_valid_age_public_key s = false)
    (hpriv : is_private_key_data s = true) :
    process_qr_data s = .dispatched "add_contact" s := by
  have hpv : previewOk s = true := by
    rw [is_private_key_data] at hpriv
    match hp : age_identity_parse s with
    | some bytes => exact previewOk_of_ageKey _ s bytes hp
    | none => rw [hp] at hpriv; cases hpriv
  rw [process_qr_data, if_pos hpv, if_neg (by simp [hsig]),
    if_neg (by simp [hpub]), if_pos hpriv]

/-- Claim C8, witness: the concrete age identity string is routed to
`add_contact`. -/
theorem c8_witness : process_qr_data agePriv = .dispatched "add_contact" agePriv :=
  c8_private_key_add_contact agePriv (by decide) (by decide) (by decide)

/-- Claim C4: for base64-decodable strings the decrypt-flow bounds are
exclusive: byte length exactly 50 or exactly 2000 is never routed to
`decrypt_message`, while byte length 51 or 1999 is routed there whenever
no higher-priority rule matches.  (Base64 strings are ASCII, so the
preview slice never panics on them; under the canonical-padding engine a
decodable string has length divisible by 4, so the 51/1999 cases have no
instances, but they follow from the branch structure all the same.) -/
theorem c4_base64_boundaries (s : String) (hb : is_base64 s = true) :
    ((utf8Len s.data = 50 ∨ utf8Len s.data = 2000) →
      ∀ ed, process_qr_data s ≠ .dispatched "decrypt_message" ed) ∧
    ((utf8Len s.data = 51 ∨ utf8Len s.data = 1999) →
      rtcSignalDataFromStr s = none → is_valid_age_public_key s = false →
      is_private_key_data s = false →
      process_qr_data s = .dispatched "decrypt_message" s) := by
  have hpv := previewOk_of_base64 s hb
  constructor
  · intro h50 ed hcontra
    rw [process_qr_data, if_pos hpv] at hcontra
    split at hcontra
    · exact absurd hcontra
        (dispatched_ne "process_rtc_signal" "decrypt_message" (by decide) _ _)
    · split at hcontra
      · exact absurd hcontra
          (dispatched_ne "add_contact" "decrypt_message" (by decide) _ _)
      · split at hcontra
        · exact absurd hcontra
            (dispatched_ne "add_contact" "decrypt_message" (by decide) _ _)
        · split at hcontra
          · rename_i hc
            rcases h50 with h | h <;> omega
          · exact absurd hcontra
              (dispatched_ne "show_dialog" "decrypt_message" (by decide) _ _)
  · intro h51 hsig hpub hpriv
    rw [process_qr_data, if_pos hpv, if_neg (by simp [hsig]),
      if_neg (by simp [hpub]), if_neg (by simp [hpriv]),
      if_pos ⟨hb, by omega, by omega⟩]

/-- Claim C4, witness: the 2000-character base64 string is not routed to
`decrypt_message`. -/
theorem c4_witness :
    process_qr_data b2000 ≠ .dispatched "decrypt_message" b2000 :=
  (c4_base64_boundaries b2000 is_base64_b2000).1 (Or.inr utf8Len_b2000) b2000

/-- Claim C2: for every provider satisfying the round-trip contract at
the relevant point, every keypair whose strings parse to a matching
identity/recipient pair (which is what key generation produces), and
every plaintext, decrypting the encryption of the plaintext returns
`Ok(Some(plaintext))`: the glue's base64 and UTF-8 transcoding is
lossless and the error plumbing preserves the success. -/
theorem c2_roundtrip (api : AgeApi) (pub priv m : String) (idB : List Nat)
    (hpriv : age_identity_parse priv = some idB)
    (hpub : age_recipient_parse pub = some (api.toPublic idB))
    (hbytes : ∀ b ∈ api.encrypt (api.toPublic idB) (utf8Encode m.data), b < 256)
    (hrt : api.decrypt idB (api.encrypt (api.toPublic idB) (utf8Encode m.data)) =
      some (utf8Encode m.data)) :
    ∃ ct, encrypt_message api pub m = .ok ct ∧
      decrypt_message api priv ct = .ok (some m) := by
  refine ⟨base64Encode (api.encrypt (api.toPublic idB) (utf8Encode m.data)),
    ?_, ?_⟩
  · rw [encrypt_message, hpub]
  · rw [decrypt_message, hpriv]
    dsimp only
    rw [base64Decode_base64Encode _ hbytes]
    dsimp only
    rw [hrt]
    dsimp only
    rw [utf8Decode_utf8Encode]

/-- Claim C2, witness: the concrete keypair strings and the identity
provider round-trip the plaintext `"hi"`. -/
theorem c2_witness :
    ∃ ct, encrypt_message trivApi agePub "hi" = .ok ct ∧
      decrypt_message trivApi agePriv ct = .ok (some "hi") :=
  c2_roundtrip trivApi agePub agePriv "hi" keyBytes (by decide) (by decide)
    (by decide) (by decide)

/-- Claim C3, counterexample: `agePriv` is a valid private key, yet
`decrypt_message` with it on a non-base64 ciphertext returns an error
(the propagated `base64::DecodeError`), not `None`: decrypt errors are
not limited to private-key parse failures. -/
theorem c3_counterexample :
    (age_identity_parse agePriv).isSome = true ∧
      decrypt_message trivApi agePriv "not-valid-base64-blob" =
        .error .invalidBase64 := by
  refine ⟨by decide, rfl⟩

/-- Claim C3 (amended): `decrypt_message` returns `Ok(None)` exactly
when the parsed key and decoded ciphertext reach the age core and it
cannot open them; it returns the key-parse error iff the private key
fails to parse; and every error it returns is a key-parse, base64-decode
or UTF-8 error (the latter two propagated with `?`). -/
theorem c3_error_characterization (api : AgeApi) (priv ct : String) :
    (age_identity_parse priv = none →
      decrypt_message api priv ct = .error .invalidKey) ∧
    (∀ idB, age_identity_parse priv = some idB → base64Decode ct = none →
      decrypt_message api priv ct = .error .invalidBase64) ∧
    (∀ idB bs, age_identity_parse priv = some idB → base64Decode ct = some bs →
      api.decrypt idB bs = none → decrypt_message api priv ct = .ok none) ∧
    (∀ e, decrypt_message api priv ct = .error e →
      ((e = .invalidKey ↔ age_identity_parse priv = none) ∧
        (e = .invalidBase64 →
          base64Decode ct = none ∧ (age_identity_parse priv).isSome = true) ∧
        (e = .invalidKey ∨ e = .invalidBase64 ∨ e = .invalidUtf8))) := by
  refine ⟨?_, ?_, ?_, ?_⟩
  · intro h
    rw [decrypt_message, h]
  · intro idB h hb
    rw [decrypt_message, h]
    dsimp only
    rw [hb]
  · intro idB bs h hb hd
    rw [decrypt_message, h]
    dsimp only
    rw [hb]
    dsimp only
    rw [hd]
  · intro e he
    rw [decrypt_message] at he
    match hp : age_identity_parse priv with
    | none =>
      rw [hp] at he
      cases he
      exact ⟨iff_of_true rfl rfl, fun h => absurd h (by decide), Or.inl rfl⟩
    | some idB =>
      rw [hp] at he
      dsimp only at he
      match hb : base64Decode ct with
      | none =>
        rw [hb] at he
        cases he
        exact ⟨iff_of_false (by decide) (by simp),
          fun _ => ⟨rfl, rfl⟩, Or.inr (Or.inl rfl)⟩
      | some bs =>
        rw [hb] at he
        dsimp only at he
        match hd : api.decrypt idB bs with
        | none => rw [hd] at he; cases he
        | some plain =>
          rw [hd] at he
          dsimp only at he
          match hu : utf8Decode plain with
          | none =>
            rw [hu] at he
            cases he
            exact ⟨iff_of_false (by decide) (by simp),
              fun h => absurd h (by decide), Or.inr (Or.inr rfl)⟩
          | some cs => rw [hu] at he; cases he

/-- Claim C3, witness: a provider that cannot open the ciphertext makes
`decrypt_message` return the ambiguous `Ok(None)` on decodable input. -/
theorem c3_witness : decrypt_message noneApi agePriv "AAAA" = .ok none :=
  (c3_error_characterization noneApi agePriv "AAAA").2.2.1 keyBytes [0, 0, 0]
    (by decide) (by decide) rfl

/-- Claim C5: `Connection::send_message` fails immediately with the
not-ready error when a channel exists but is not open, fails with the
no-channel error when no channel exists, and returns `Ok` only when the
channel is open: it never silently succeeds without an open channel (the
model is single-threaded, as in the wasm runtime, so the mutex always
locks). -/
theorem c5_send_requires_open (conn : Connection) (msg : RtcMessage) :
    (∀ st, conn.channel = some st → st ≠ .opened →
      conn.send_message msg = .error (.channelNotReady st)) ∧
    (conn.channel = none → conn.send_message msg = .error .noDataChannel) ∧
    (conn.send_message msg = .ok () → conn.channel = some .opened) := by
  refine ⟨?_, ?_, ?_⟩
  · intro st h hne
    rw [Connection.send_message, h]
    dsimp only
    rw [if_pos hne]
  · intro h
    rw [Connection.send_message, h]
  · intro h
    rw [Connection.send_message] at h
    match hc : conn.channel with
    | some st =>
      rw [hc] at h
      dsimp only at h
      split at h
      · cases h
      · rename_i hst
        rw [not_not.mp hst]
    | none => rw [hc] at h; cases h

/-- Claim C5, witness: sending on a connecting channel fails with the
not-ready error. -/
theorem c5_witness :
    Connection.send_message ⟨some .connecting⟩ (.publicKey "k") =
      .error (.channelNotReady .connecting) :=
  (c5_send_requires_open ⟨some .connecting⟩ (.publicKey "k")).1 .connecting rfl
    (by decide)

/-- Claim C6, counterexample: when decryption yields the ambiguous
`Ok(None)`, the worker's `Decrypt` branch posts the `Error` response
shape (via `error_report`), not a neutral non-error outcome. -/
theorem c6_counterexample :
    decrypt_message noneApi agePriv "AAAA" = .ok none ∧
      worker_decrypt_branch noneApi agePriv "AAAA" =
        .errorReport "❌ Error decrypting message" := by
  refine ⟨rfl, by decide⟩

/-- Claim C6 (amended): the worker never crashes on a `None` decrypt,
but it reports it through the `Error` response shape with the fixed
message `"❌ Error decrypting message"`; the `Decrypted` shape is posted
exactly for successful decryptions. -/
theorem c6_decrypt_none_reporting (api : AgeApi) (pk d : String) :
    (decrypt_message api pk d = .ok none →
      worker_decrypt_branch api pk d =
        .errorReport "❌ Error decrypting message") ∧
    (∀ s, worker_decrypt_branch api pk d = .decrypted s ↔
      decrypt_message api pk d = .ok (some s)) := by
  constructor
  · intro h
    rw [worker_decrypt_branch, h]
  · intro s
    constructor
    · intro h
      rw [worker_decrypt_branch] at h
      match hd : decrypt_message api pk d with
      | .ok (some d1) =>
        rw [hd] at h
        cases h
        rfl
      | .ok none => rw [hd] at h; cases h
      | .error e => rw [hd] at h; cases h
    · intro h
      rw [worker_decrypt_branch, h]

/-- Claim C6, witness: the amended reporting applied at the concrete
`None`-yielding input. -/
theorem c6_witness :
    worker_decrypt_branch noneApi agePriv "AAAA" =
      .errorReport "❌ Error decrypting message" :=
  (c6_decrypt_none_reporting noneApi agePriv "AAAA").1 rfl

/-- Claim C7: a received envelope parsing as `PublicKey{k}` sets the
session's peer-public-key field to `k` unconditionally, and a later
`PublicKey` envelope simply overwrites the stored key, whatever the
previous state. -/
theorem c7_public_key_envelope (st : Option String) (w k : String)
    (h : rtcMessageFromStr w = some (.publicKey k)) :
    applyRtcAction st (handle_rtc_data w) = some k ∧
    (∀ st2 w2 k2, rtcMessageFromStr w2 = some (.publicKey k2) →
      applyRtcAction (applyRtcAction st2 (handle_rtc_data w))
        (handle_rtc_data w2) = some k2) := by
  have hw : handle_rtc_data w = .setPeerKey k := by
    rw [handle_rtc_data, h]
  constructor
  · rw [hw]
    rfl
  · intro st2 w2 k2 h2
    have hw2 : handle_rtc_data w2 = .setPeerKey k2 := by
      rw [handle_rtc_data, h2]
    rw [hw2]
    rfl

/-- Claim C7, witness: a concrete `PublicKey` envelope stores the key,
and a repeated one overwrites it. -/
theorem c7_witness :
    applyRtcAction none
      (handle_rtc_data "\x7b\"type\":\"publicKey\",\"public_key\":\"K1\"\x7d") =
      some "K1" :=
  (c7_public_key_envelope none
    "\x7b\"type\":\"publicKey\",\"public_key\":\"K1\"\x7d" "K1" (by decide)).1

end QrEncrypt
